import Mathlib

/-!
Verification of the json_parsing_test repository.

Shallow embedding of the three components the claims are about:

* the Payload Normalizer `extract_json_from_xml_or_markdown` and the
  Structured-Data Validator `try_parse_json` from
  `json_parsing_test/experiment_direct_json_vs_xml.py`, together with the
  per-repetition experiment loop of that script;
* the Fuzzy Entity Matcher methods `_match_physician`, `_match_facility`
  and `_match_lab_report`, and the fixed upload-option set of
  `LlamaParseAPI.upload_file`, from
  `json_parsing_test/mediboard_parsing/mediboard_experiment.py`.

Python strings are modelled as `List Char`; Python floats as `Rat`
(exact rationals); exceptions as `Except` error values.  Case folding
`str.lower()` and whitespace in `str.strip()` are modelled on the ASCII
range used by the data of this program.
-/

/-- The backtick character, written by code so it cannot be confused with
markup in this file. -/
def bq : Char := Char.ofNat 96

/-- Left curly brace character. -/
def lbr : Char := Char.ofNat 123

/-- Right curly brace character. -/
def rbr : Char := Char.ofNat 125

/-- Convert a Lean string literal to the character-list model of a
Python string. -/
def cs (s : String) : List Char := s.toList

/-- The whitespace set of Python `str.strip()` (ASCII range). -/
def wsChar (c : Char) : Bool :=
  c == ' ' || c == '\t' || c == '\n' || c == '\r' || c == '\x0b' || c == '\x0c'

/-- ASCII lower-casing of one character, as `str.lower()` does on the
ASCII range (other characters are returned unchanged). -/
def lc (c : Char) : Char :=
  if c = 'A' then 'a' else if c = 'B' then 'b' else if c = 'C' then 'c'
  else if c = 'D' then 'd' else if c = 'E' then 'e' else if c = 'F' then 'f'
  else if c = 'G' then 'g' else if c = 'H' then 'h' else if c = 'I' then 'i'
  else if c = 'J' then 'j' else if c = 'K' then 'k' else if c = 'L' then 'l'
  else if c = 'M' then 'm' else if c = 'N' then 'n' else if c = 'O' then 'o'
  else if c = 'P' then 'p' else if c = 'Q' then 'q' else if c = 'R' then 'r'
  else if c = 'S' then 's' else if c = 'T' then 't' else if c = 'U' then 'u'
  else if c = 'V' then 'v' else if c = 'W' then 'w' else if c = 'X' then 'x'
  else if c = 'Y' then 'y' else if c = 'Z' then 'z' else c

/-- `str.lower()` on the character-list model. -/
def pyLower (s : List Char) : List Char := s.map lc

/-- Drop leading whitespace, the left half of Python `str.strip()`. -/
def trimL : List Char → List Char
  | [] => []
  | c :: s => if wsChar c then trimL s else c :: s

/-- Python `str.strip()`: drop whitespace from both ends. -/
def pyStrip (s : List Char) : List Char :=
  ((trimL ((trimL s).reverse)).reverse)

/-- Does `s` start with `pat` (exact characters)? -/
def leadsWith : List Char → List Char → Bool
  | [], _ => true
  | _ :: _, [] => false
  | p :: ps, c :: s => p == c && leadsWith ps s

/-- The upper-case twin of a lower-case ASCII letter (other characters
are their own twin). -/
def ucInv (p : Char) : Char :=
  if p = 'a' then 'A' else if p = 'b' then 'B' else if p = 'c' then 'C'
  else if p = 'd' then 'D' else if p = 'e' then 'E' else if p = 'f' then 'F'
  else if p = 'g' then 'G' else if p = 'h' then 'H' else if p = 'i' then 'I'
  else if p = 'j' then 'J' else if p = 'k' then 'K' else if p = 'l' then 'L'
  else if p = 'm' then 'M' else if p = 'n' then 'N' else if p = 'o' then 'O'
  else if p = 'p' then 'P' else if p = 'q' then 'Q' else if p = 'r' then 'R'
  else if p = 's' then 'S' else if p = 't' then 'T' else if p = 'u' then 'U'
  else if p = 'v' then 'V' else if p = 'w' then 'W' else if p = 'x' then 'X'
  else if p = 'y' then 'Y' else if p = 'z' then 'Z' else p

/-- Does `s` start with `pat`, comparing case-insensitively (`pat` is
given lower-case, and a character matches it exactly or as its
upper-case twin)?  Models a pattern matched with the `re.I` flag over
the ASCII patterns this program uses. -/
def leadsWithCI : List Char → List Char → Bool
  | [], _ => true
  | _ :: _, [] => false
  | p :: ps, c :: s => (c == p || c == ucInv p) && leadsWithCI ps s

/-- Does `pat` occur contiguously anywhere inside `s`?  Models the Python
substring test `pat in s`. -/
def containsSeg (pat : List Char) : List Char → Bool
  | [] => leadsWith pat []
  | c :: s => leadsWith pat (c :: s) || containsSeg pat s

/-- Python `a in b` on strings. -/
def strIn (a b : List Char) : Bool := containsSeg a b

/-- Split at newline characters, as Python `str.split` on a newline does:
the result always has one more entry than the number of newlines. -/
def linesNL : List Char → List (List Char)
  | [] => [[]]
  | c :: s =>
    if c = '\n' then [] :: linesNL s
    else
      match linesNL s with
      | [] => [[c]]
      | l :: ls => (c :: l) :: ls

/-- Rejoin what `linesNL` split. -/
def unlinesNL : List (List Char) → List Char
  | [] => []
  | [l] => l
  | l :: l' :: ls => l ++ '\n' :: unlinesNL (l' :: ls)

/-- Three backticks: the fence marker. -/
def bt3 : List Char := [bq, bq, bq]

/-- The fence marker followed by the language tag, lower-case. -/
def bt3json : List Char := bt3 ++ cs "json"

/-- One line under the first substitution of the Normalizer,
re.sub of the anchored pattern (three backticks, then an optional
case-insensitive language tag "json") replaced by the empty string: with
the multiline flag the anchor matches at each line start, and the
greedy optional group takes the tag when present. -/
def lineSubOpen (l : List Char) : List Char :=
  if leadsWithCI bt3json l then List.drop 7 l
  else if leadsWith bt3 l then List.drop 3 l
  else l

/-- One line under the second substitution of the Normalizer, re.sub of
three backticks anchored at line end replaced by the empty string. -/
def lineSubClose (l : List Char) : List Char :=
  if leadsWith bt3 l.reverse then (List.drop 3 l.reverse).reverse else l

/-- First substitution of the Normalizer over the whole text (the
multiline anchor splits it into lines). -/
def subFenceOpen (s : List Char) : List Char :=
  unlinesNL ((linesNL s).map lineSubOpen)

/-- Second substitution of the Normalizer over the whole text. -/
def subFenceClose (s : List Char) : List Char :=
  unlinesNL ((linesNL s).map lineSubClose)

/-- Opening wrapper tag, first alternative. -/
def openResp : List Char := cs "<response>"

/-- Opening wrapper tag, second alternative. -/
def openJsonT : List Char := cs "<json>"

/-- Closing wrapper tag, first alternative. -/
def closeResp : List Char := cs "</response>"

/-- Closing wrapper tag, second alternative. -/
def closeJsonT : List Char := cs "</json>"

/-- Scan for the earliest closing wrapper tag; return the characters
before it.  Models the lazy group of the Normalizer's tag search: the
group contents end at the first closing tag found. -/
def findCloseTag : List Char → Option (List Char)
  | [] => none
  | c :: s =>
    if leadsWithCI closeResp (c :: s) || leadsWithCI closeJsonT (c :: s) then some []
    else
      match findCloseTag s with
      | some m => some (c :: m)
      | none => none

/-- The Normalizer's re.search for content between an opening and a
closing wrapper tag (case-insensitive, dot matches newline): leftmost
opening tag that is followed by some closing tag wins, and the lazy
group ends at the earliest closing tag after it. -/
def findTagContent : List Char → Option (List Char)
  | [] => none
  | c :: s =>
    if leadsWithCI openResp (c :: s) then
      match findCloseTag (List.drop 10 (c :: s)) with
      | some m => some m
      | none => findTagContent s
    else if leadsWithCI openJsonT (c :: s) then
      match findCloseTag (List.drop 6 (c :: s)) with
      | some m => some m
      | none => findTagContent s
    else findTagContent s

/-- The Payload Normalizer `extract_json_from_xml_or_markdown` of
`experiment_direct_json_vs_xml.py` on a (non-null) Python string:
if the text is falsy (empty) return its strip; otherwise strip, apply
the two fence substitutions (stripping again in between, as the source
does), then return the stripped wrapper-tag content when the tag search
matches and the stripped remainder otherwise. -/
def extract_json_from_xml_or_markdown (text : List Char) : List Char :=
  if text = [] then pyStrip text
  else
    let t1 := pyStrip text
    let t2 := subFenceOpen t1
    let t3 := pyStrip t2
    let t4 := subFenceClose t3
    match findTagContent t4 with
    | some m => pyStrip m
    | none => pyStrip t4

/-- The Normalizer at the level of an optional (possibly null) argument:
`None` is falsy, so the source takes the early-return branch and calls
`.strip()` on `None`, which raises `AttributeError`; a string argument
returns normally. -/
def extract_json_opt : Option (List Char) → Except String (List Char)
  | Option.none =>
      Except.error "AttributeError: NoneType object has no attribute strip"
  | Option.some t => Except.ok (extract_json_from_xml_or_markdown t)

/-- JSON whitespace, as skipped by the Python json decoder. -/
def skipWsJ : List Char → List Char
  | [] => []
  | c :: s => if c = ' ' || c = '\t' || c = '\n' || c = '\r' then skipWsJ s else c :: s

/-- A parsed JSON value.  Numbers keep their lexeme: the Validator only
reports well-formedness, so the numeric value itself is never consulted. -/
inductive JVal where
  | jnull
  | jbool (b : Bool)
  | jnum (lexeme : List Char)
  | jstr (s : List Char)
  | jarr (xs : List JVal)
  | jobj (fs : List (List Char × JVal))

/-- Hexadecimal digit test for string escapes. -/
def isHexD (c : Char) : Bool := (cs "0123456789abcdefABCDEF").contains c

/-- Value of a hexadecimal digit. -/
def hexV (c : Char) : Nat :=
  if c.isDigit then c.toNat - 48
  else if c.toNat ≥ 97 then c.toNat - 87
  else c.toNat - 55

/-- One-character string escapes of JSON. -/
def escChar (e : Char) : Option Char :=
  if e = '\"' then some '\"'
  else if e = '\\' then some '\\'
  else if e = '/' then some '/'
  else if e = 'b' then some '\x08'
  else if e = 'f' then some '\x0c'
  else if e = 'n' then some '\n'
  else if e = 'r' then some '\r'
  else if e = 't' then some '\t'
  else none

/-- JSON string body after the opening quote, in the strict mode the
Python decoder uses: raw control characters below 0x20 are rejected,
escapes are the eight single-character ones plus a 4-hex-digit escape. -/
def parseStr : List Char → Option (List Char × List Char)
  | [] => none
  | c :: s =>
    if c = '\"' then some ([], s)
    else if c = '\\' then
      match s with
      | [] => none
      | e :: s' =>
        if e = 'u' then
          match s' with
          | h1 :: h2 :: h3 :: h4 :: s'' =>
            if isHexD h1 && isHexD h2 && isHexD h3 && isHexD h4 then
              (parseStr s'').map
                (fun p =>
                  (Char.ofNat (((hexV h1 * 16 + hexV h2) * 16 + hexV h3) * 16 + hexV h4) :: p.1,
                   p.2))
            else none
          | _ => none
        else
          match escChar e with
          | some d => (parseStr s').map (fun p => (d :: p.1, p.2))
          | none => none
    else if c.toNat < 32 then none
    else (parseStr s).map (fun p => (c :: p.1, p.2))

/-- Take a maximal run of decimal digits. -/
def digitsTake : List Char → List Char × List Char
  | [] => ([], [])
  | c :: s =>
    if c.isDigit then
      let p := digitsTake s
      (c :: p.1, p.2)
    else ([], c :: s)

/-- Integer part of a JSON number: a single zero, or a nonzero digit
followed by digits (leading zeros are not part of the number). -/
def parseIntPart : List Char → Option (List Char × List Char)
  | [] => none
  | c :: s =>
    if c = '0' then some ([c], s)
    else if c.isDigit then
      let p := digitsTake s
      some (c :: p.1, p.2)
    else none

/-- Optional fraction part: a dot must be followed by at least one digit
to be consumed, otherwise the number ends before it. -/
def parseFracPart : List Char → List Char × List Char
  | '.' :: c :: s =>
    if c.isDigit then
      let p := digitsTake s
      ('.' :: c :: p.1, p.2)
    else ([], '.' :: c :: s)
  | s => ([], s)

/-- Optional exponent part: an e/E with an optional sign must be
followed by at least one digit to be consumed. -/
def parseExpPart : List Char → List Char × List Char
  | e :: rest =>
    if e = 'e' || e = 'E' then
      match rest with
      | '+' :: c :: r2 =>
        if c.isDigit then
          let p := digitsTake r2
          (e :: '+' :: c :: p.1, p.2)
        else ([], e :: rest)
      | '-' :: c :: r2 =>
        if c.isDigit then
          let p := digitsTake r2
          (e :: '-' :: c :: p.1, p.2)
        else ([], e :: rest)
      | c :: r2 =>
        if c.isDigit then
          let p := digitsTake r2
          (e :: c :: p.1, p.2)
        else ([], e :: rest)
      | [] => ([], e :: rest)
    else ([], e :: rest)
  | [] => ([], [])

/-- A JSON number (lexeme and remainder). -/
def parseNum (s : List Char) : Option (List Char × List Char) :=
  let p0 : List Char × List Char :=
    match s with
    | '-' :: r => (['-'], r)
    | r => ([], r)
  match parseIntPart p0.2 with
  | none => none
  | some (ip, r1) =>
    let pf := parseFracPart r1
    let pe := parseExpPart pf.2
    some (p0.1 ++ ip ++ pf.1 ++ pe.1, pe.2)

mutual
/-- One JSON value, by recursive descent on a fuel counter.  Follows the
grammar the Python json decoder accepts by default: objects, arrays,
strings, numbers, `true`, `false`, `null`, and the non-standard
constants `NaN`, `Infinity`, `-Infinity`. -/
def parseVal : Nat → List Char → Option (JVal × List Char)
  | 0, _ => none
  | f + 1, s =>
    match skipWsJ s with
    | [] => none
    | c :: r =>
      if c = lbr then
        match skipWsJ r with
        | c1 :: r2 =>
          if c1 = rbr then some (JVal.jobj [], r2)
          else (parseMembers f (c1 :: r2)).map (fun p => (JVal.jobj p.1, p.2))
        | [] => none
      else if c = '[' then
        match skipWsJ r with
        | c1 :: r2 =>
          if c1 = ']' then some (JVal.jarr [], r2)
          else (parseElems f (c1 :: r2)).map (fun p => (JVal.jarr p.1, p.2))
        | [] => none
      else if c = '\"' then
        (parseStr r).map (fun p => (JVal.jstr p.1, p.2))
      else if leadsWith (cs "true") (c :: r) then some (JVal.jbool true, List.drop 4 (c :: r))
      else if leadsWith (cs "false") (c :: r) then some (JVal.jbool false, List.drop 5 (c :: r))
      else if leadsWith (cs "null") (c :: r) then some (JVal.jnull, List.drop 4 (c :: r))
      else if leadsWith (cs "NaN") (c :: r) then some (JVal.jnum (cs "NaN"), List.drop 3 (c :: r))
      else if leadsWith (cs "Infinity") (c :: r) then
        some (JVal.jnum (cs "Infinity"), List.drop 8 (c :: r))
      else if leadsWith (cs "-Infinity") (c :: r) then
        some (JVal.jnum (cs "-Infinity"), List.drop 9 (c :: r))
      else (parseNum (c :: r)).map (fun p => (JVal.jnum p.1, p.2))

/-- Comma-separated array elements up to the closing bracket. -/
def parseElems : Nat → List Char → Option (List JVal × List Char)
  | 0, _ => none
  | f + 1, s =>
    match parseVal f s with
    | some (x, r) =>
      match skipWsJ r with
      | ',' :: r2 => (parseElems f r2).map (fun p => (x :: p.1, p.2))
      | ']' :: r2 => some ([x], r2)
      | _ => none
    | none => none

/-- Comma-separated object members up to the closing brace. -/
def parseMembers : Nat → List Char → Option (List (List Char × JVal) × List Char)
  | 0, _ => none
  | f + 1, s =>
    match skipWsJ s with
    | '\"' :: r =>
      match parseStr r with
      | some (k, r1) =>
        match skipWsJ r1 with
        | ':' :: r2 =>
          match parseVal f r2 with
          | some (v, r3) =>
            match skipWsJ r3 with
            | ',' :: r4 => (parseMembers f r4).map (fun p => ((k, v) :: p.1, p.2))
            | c :: r4 => if c = rbr then some ([(k, v)], r4) else none
            | [] => none
          | none => none
        | _ => none
      | none => none
    | _ => none
end

/-- `json.loads` on a string: parse one value and require only
whitespace after it; `none` models a raised `json.JSONDecodeError`. -/
def json_loads (s : List Char) : Option JVal :=
  match parseVal (2 * s.length + 2) s with
  | some (v, r) => if skipWsJ r = [] then some v else none
  | none => none

/-- The Structured-Data Validator `try_parse_json` of
`experiment_direct_json_vs_xml.py`: call `json.loads`, return `True` on
success, catch `json.JSONDecodeError` and return `False`. -/
def try_parse_json (s : List Char) : Bool :=
  match json_loads s with
  | some _ => true
  | none => false

/-- Reference doctor record (static table entry). -/
structure Doctor where
  id : Int
  doctorName : List Char
  title : List Char
  doctorLastName : List Char
deriving DecidableEq

/-- Reference institution record (static table entry). -/
structure Institution where
  id : Int
  value : List Char
  displayName : List Char
deriving DecidableEq

/-- Reference lab-test record (static table entry). -/
structure LabTest where
  sample_type : List Char
  test_type : List Char
  parameter : List Char
  id : Int
deriving DecidableEq

/-- Outcome of one matcher call: either the status-False record the
source returns when the reference list is empty (or an exception was
caught), or a Match Result with the matched entity, the match-quality
label, and the confidence.  Python truthiness of `best_match` is
modelled as `Option.isSome`: reference entities are non-empty records. -/
inductive MatchOut (α : Type) where
  | noData (message : String)
  | res (matched : Option α) (match_score : String) (confidence : Rat)

/-- The best-match scan shared by the three matchers: fold left over the
reference list, replacing the current best exactly when the new score is
strictly greater, starting from no match and score zero. -/
def bestScan {α : Type} (score : α → Nat) (l : List α) : Option α × Nat :=
  l.foldl (fun acc d => if acc.2 < score d then (some d, score d) else acc) (Option.none, 0)

/-- Physician score: one point when either lower-cased first name
contains the other, one point when either lower-cased last name
contains the other. -/
def scorePhysician (first last : List Char) (d : Doctor) : Nat :=
  (if strIn (pyLower first) (pyLower d.doctorName)
      || strIn (pyLower d.doctorName) (pyLower first) then 1 else 0) +
  (if strIn (pyLower last) (pyLower d.doctorLastName)
      || strIn (pyLower d.doctorLastName) (pyLower last) then 1 else 0)

/-- `_match_physician` of `mediboard_experiment.py`.  The unused vector
store the source builds before the loop is omitted; absent input fields
default to the empty string at the call boundary. -/
def _match_physician (first last : List Char) (doctors : List Doctor) : MatchOut Doctor :=
  if doctors = [] then MatchOut.noData "No doctor reference data available"
  else
    let b := bestScan (scorePhysician first last) doctors
    if b.1.isSome ∧ 0 < b.2 then
      MatchOut.res b.1 (if b.2 = 2 then "Similar: Typo" else "Alternative") ((b.2 : Rat) / 2)
    else MatchOut.res Option.none "Unknown" 0

/-- Facility score: two points when either lower-cased facility name
contains the institution's display name (or conversely), otherwise one
point on the same test against the institution's value field. -/
def scoreFacility (facility_name : List Char) (inst : Institution) : Nat :=
  if strIn (pyLower facility_name) (pyLower inst.displayName)
      || strIn (pyLower inst.displayName) (pyLower facility_name) then 2
  else if strIn (pyLower facility_name) (pyLower inst.value)
      || strIn (pyLower inst.value) (pyLower facility_name) then 1
  else 0

/-- `_match_facility` of `mediboard_experiment.py`. -/
def _match_facility (facility_name : List Char) (institutions : List Institution) :
    MatchOut Institution :=
  if institutions = [] then MatchOut.noData "No institution reference data available"
  else
    let b := bestScan (scoreFacility facility_name) institutions
    if b.1.isSome ∧ 0 < b.2 then
      MatchOut.res b.1 (if b.2 = 2 then "Similar: Typo" else "Alternative") ((b.2 : Rat) / 2)
    else MatchOut.res Option.none "Unknown" 0

/-- Lab-report score: two points on the parameter-name containment test
plus one point on the test-type containment test. -/
def scoreLabReport (name test_type : List Char) (lt : LabTest) : Nat :=
  (if strIn (pyLower name) (pyLower lt.parameter)
      || strIn (pyLower lt.parameter) (pyLower name) then 2 else 0) +
  (if strIn (pyLower test_type) (pyLower lt.test_type)
      || strIn (pyLower lt.test_type) (pyLower test_type) then 1 else 0)

/-- `_match_lab_report` of `mediboard_experiment.py` (the echoed
original parameter dictionary is not part of the model). -/
def _match_lab_report (name test_type : List Char) (lab_tests : List LabTest) :
    MatchOut LabTest :=
  if lab_tests = [] then MatchOut.noData "No lab test reference data available"
  else
    let b := bestScan (scoreLabReport name test_type) lab_tests
    if b.1.isSome ∧ 0 < b.2 then
      MatchOut.res b.1 (if 2 ≤ b.2 then "Similar: Typo" else "Alternative") ((b.2 : Rat) / 3)
    else MatchOut.res Option.none "Unknown" 0

/-- Match-quality label of an outcome (empty for a status-False record). -/
def matchLabel {α : Type} : MatchOut α → String
  | MatchOut.noData _ => ""
  | MatchOut.res _ l _ => l

/-- Confidence of an outcome (zero for a status-False record). -/
def matchConf {α : Type} : MatchOut α → Rat
  | MatchOut.noData _ => 0
  | MatchOut.res _ _ c => c

/-- Matched entity of an outcome. -/
def matchEnt {α : Type} : MatchOut α → Option α
  | MatchOut.noData _ => Option.none
  | MatchOut.res m _ _ => m

/-- Is the outcome a status-False record? -/
def isNoData {α : Type} : MatchOut α → Prop
  | MatchOut.noData _ => True
  | MatchOut.res _ _ _ => False

/-- The string values of the MatchScore enumeration of
`mediboard_experiment.py`. -/
def MatchScoreValues : List String := ["Exact", "Similar: Typo", "Alternative", "Unknown"]

/-- The labels a matcher can put in a Match Result (a status-False
record carries none). -/
def labelOk {α : Type} : MatchOut α → Prop
  | MatchOut.noData _ => True
  | MatchOut.res _ lab _ => lab = "Similar: Typo" ∨ lab = "Alternative" ∨ lab = "Unknown"

/-- A value of the fixed option set `upload_file` sends: a string or a
boolean feature flag. -/
inductive OptVal where
  | s (v : String)
  | b (v : Bool)
deriving DecidableEq

/-- The fixed option dictionary `upload_file` posts with a document (its
default arguments filled in), in source order. -/
def uploadData : List (String × OptVal) :=
  [("parse_mode", OptVal.s "parse_page_with_lvm"),
   ("vendor_multimodal_model_name", OptVal.s "anthropic-sonnet-3.7"),
   ("input_url", OptVal.s ""),
   ("structured_output", OptVal.b false),
   ("disable_ocr", OptVal.b false),
   ("disable_image_extraction", OptVal.b false),
   ("adaptive_long_table", OptVal.b false),
   ("annotate_links", OptVal.b false),
   ("do_not_unroll_columns", OptVal.b false),
   ("html_make_all_elements_visible", OptVal.b false),
   ("html_remove_navigation_elements", OptVal.b false),
   ("html_remove_fixed_elements", OptVal.b false),
   ("guess_xlsx_sheet_name", OptVal.b false),
   ("do_not_cache", OptVal.b false),
   ("invalidate_cache", OptVal.b false),
   ("output_pdf_of_document", OptVal.b false),
   ("take_screenshot", OptVal.b false),
   ("is_formatting_instruction", OptVal.b true)]

/-- One successful generator call of the experiment script: the raw
text, the token counts, and the derived cost. -/
structure GenOut where
  output : List Char
  in_toks : Nat
  out_toks : Nat
  cost : Rat

/-- One per-repetition detail record of the experiment loop: either the
full record of a completed call, or the record holding the error string
of a caught exception. -/
inductive RunDetail where
  | ok (run : Nat) (raw_output : List Char) (json_extracted : List Char)
      (parsed_ok : Bool) (input_tokens : Nat) (output_tokens : Nat) (cost : Rat)
  | err (run : Nat) (error : String)

/-- Accumulator of the inner repetition loop. -/
structure BatchAcc where
  successes : Nat
  tin : Nat
  tout : Nat
  tcost : Rat
  details : List RunDetail

/-- The per-(prompt, method) summary record the experiment script
appends to its results. -/
structure MethodSummary where
  successes : Nat
  total_runs : Nat
  avg_input_tokens : Rat
  avg_output_tokens : Rat
  avg_cost : Rat
  details : List RunDetail

/-- Round half up at the integers (Python `round` uses banker's rounding
on floats; the difference never matters to the claims settled here). -/
def halfUp (q : Rat) : Int := Int.fdiv (2 * q.num + q.den) (2 * q.den)

/-- `round(x, d)` modelled on exact rationals. -/
def roundAt (d : Nat) (q : Rat) : Rat := (halfUp (q * (10 ^ d : Nat)) : Rat) / (10 ^ d : Nat)

/-- One repetition of the experiment loop: call the generator, and on
success normalize, validate, count a success on a parsed payload and
append the full detail record; on a raised exception append a detail
record holding only the repetition index and the error string and leave
every total unchanged. -/
def runRep (gen : Nat → Except String GenOut) (acc : BatchAcc) (run : Nat) : BatchAcc :=
  match gen run with
  | Except.ok g =>
    let json_text := extract_json_from_xml_or_markdown g.output
    let parsed_ok := try_parse_json json_text
    ⟨acc.successes + (if parsed_ok then 1 else 0),
     acc.tin + g.in_toks, acc.tout + g.out_toks, acc.tcost + g.cost,
     acc.details ++ [RunDetail.ok (run + 1) g.output json_text parsed_ok g.in_toks g.out_toks g.cost]⟩
  | Except.error e =>
    ⟨acc.successes, acc.tin, acc.tout, acc.tcost,
     acc.details ++ [RunDetail.err (run + 1) e]⟩

/-- The batch of `n` repetitions for one (prompt, method) pair and the
Method Summary built from it, as the main loop of
`experiment_direct_json_vs_xml.py` computes it (averages rounded to one
decimal for tokens, six for cost). -/
def runBatch (gen : Nat → Except String GenOut) (n : Nat) : MethodSummary :=
  let a := (List.range n).foldl (runRep gen) ⟨0, 0, 0, 0, []⟩
  ⟨a.successes, n,
   roundAt 1 ((a.tin : Rat) / (n : Rat)),
   roundAt 1 ((a.tout : Rat) / (n : Rat)),
   roundAt 6 (a.tcost / (n : Rat)),
   a.details⟩

/-- Is a detail record one that contains an error string? -/
def isErrRecord : RunDetail → Prop
  | RunDetail.err _ _ => True
  | RunDetail.ok _ _ _ _ _ _ _ => False

/-! ### Lemmas: occurrence and case folding -/

theorem leadsWith_iff {pat s : List Char} :
    leadsWith pat s = true ↔ ∃ q, s = pat ++ q := by
  induction pat generalizing s with
  | nil => simp [leadsWith]
  | cons p ps ih =>
    cases s with
    | nil => simp [leadsWith]
    | cons c t =>
      simp only [leadsWith, Bool.and_eq_true, beq_iff_eq]
      constructor
      · rintro ⟨rfl, h⟩
        obtain ⟨q, rfl⟩ := ih.mp h
        exact ⟨q, rfl⟩
      · rintro ⟨q, hq⟩
        injection hq with h1 h2
        exact ⟨h1.symm, ih.mpr ⟨q, h2⟩⟩

theorem containsSeg_iff {pat s : List Char} :
    containsSeg pat s = true ↔ ∃ p q, s = p ++ pat ++ q := by
  induction s with
  | nil =>
    simp only [containsSeg, leadsWith_iff]
    constructor
    · rintro ⟨q, hq⟩
      exact ⟨[], q, hq⟩
    · rintro ⟨p, q, hpq⟩
      have hp : p = [] := by
        cases p with
        | nil => rfl
        | cons a t => simp at hpq
      subst hp
      exact ⟨q, by simpa using hpq⟩
  | cons c t ih =>
    simp only [containsSeg, Bool.or_eq_true, leadsWith_iff, ih]
    constructor
    · rintro (⟨q, hq⟩ | ⟨p, q, hq⟩)
      · exact ⟨[], q, by simpa using hq⟩
      · exact ⟨c :: p, q, by simp [hq]⟩
    · rintro ⟨p, q, hq⟩
      cases p with
      | nil => exact Or.inl ⟨q, by simpa using hq⟩
      | cons a p' =>
        injection hq with h1 h2
        exact Or.inr ⟨p', q, h2⟩

theorem containsSeg_part {pat m p q s : List Char} (hs : s = p ++ m ++ q)
    (hm : containsSeg pat m = true) : containsSeg pat s = true := by
  obtain ⟨p', q', rfl⟩ := containsSeg_iff.mp hm
  exact containsSeg_iff.mpr ⟨p ++ p', q' ++ q, by simp [hs]⟩

theorem containsSeg_part_not {pat m p q s : List Char} (hs : s = p ++ m ++ q)
    (h : containsSeg pat s = false) : containsSeg pat m = false := by
  by_contra hne
  have := containsSeg_part hs (by simpa using eq_true_of_ne_false hne)
  simp [this] at h

theorem mem_part {x : Char} {m p q s : List Char} (hs : s = p ++ m ++ q) (hx : x ∈ m) :
    x ∈ s := by
  subst hs
  simp [hx]

theorem leadsWithCI_head_false {p c : Char} {ps s : List Char}
    (h1 : c ≠ p) (h2 : c ≠ ucInv p) : leadsWithCI (p :: ps) (c :: s) = false := by
  simp [leadsWithCI, h1, h2]

/-! ### Lemmas: strip -/

theorem trimL_cons_ws {c : Char} {s : List Char} (h : wsChar c = true) :
    trimL (c :: s) = trimL s := by simp [trimL, h]

theorem trimL_cons_not {c : Char} {s : List Char} (h : wsChar c = false) :
    trimL (c :: s) = c :: s := by simp [trimL, h]

theorem trimL_head {s t : List Char} {c : Char} (h : trimL s = c :: t) :
    wsChar c = false := by
  induction s with
  | nil => simp [trimL] at h
  | cons a s ih =>
    by_cases ha : wsChar a = true
    · exact ih (by rwa [trimL_cons_ws ha] at h)
    · rw [trimL_cons_not (by simpa using ha)] at h
      injection h with h1 _
      subst h1
      simpa using ha

theorem trimL_decomp (s : List Char) : ∃ p, s = p ++ trimL s := by
  induction s with
  | nil => exact ⟨[], rfl⟩
  | cons a s ih =>
    by_cases ha : wsChar a = true
    · obtain ⟨p, hp⟩ := ih
      exact ⟨a :: p, by simp [trimL_cons_ws ha, ← hp]⟩
    · exact ⟨[], by simp [trimL_cons_not (by simpa using ha)]⟩

theorem trimL_idem (s : List Char) : trimL (trimL s) = trimL s := by
  cases hs : trimL s with
  | nil => rfl
  | cons c t => rw [trimL_cons_not (trimL_head hs)]

theorem pyStrip_nil : pyStrip [] = [] := rfl

theorem pyStrip_decomp (s : List Char) : ∃ p q, s = p ++ pyStrip s ++ q := by
  obtain ⟨p, hp⟩ := trimL_decomp s
  obtain ⟨p2, hp2⟩ := trimL_decomp (trimL s).reverse
  refine ⟨p, p2.reverse, ?_⟩
  have h2 : trimL s = pyStrip s ++ p2.reverse := by
    have h1 := congrArg List.reverse hp2
    simpa [pyStrip] using h1
  nth_rewrite 1 [hp]
  rw [h2, List.append_assoc]

theorem pyStrip_cons_ws {a : Char} {s : List Char} (h : wsChar a = true) :
    pyStrip (a :: s) = pyStrip s := by
  simp [pyStrip, trimL_cons_ws h]

theorem trimL_append (s t : List Char) :
    trimL (s ++ t) = if trimL s = [] then trimL t else trimL s ++ t := by
  induction s with
  | nil => simp [trimL]
  | cons a s ih =>
    by_cases ha : wsChar a = true
    · simpa [trimL_cons_ws ha] using ih
    · simp [trimL_cons_not (by simpa using ha)]

theorem pyStrip_concat_ws {b : Char} {s : List Char} (h : wsChar b = true) :
    pyStrip (s ++ [b]) = pyStrip s := by
  by_cases hs : trimL s = []
  · have h1 : trimL (s ++ [b]) = [] := by
      rw [trimL_append, if_pos hs, trimL_cons_ws h]
      rfl
    rw [pyStrip, pyStrip, h1, hs]
  · have h1 : trimL (s ++ [b]) = trimL s ++ [b] := by
      rw [trimL_append, if_neg hs]
    have h2 : (trimL s ++ [b]).reverse = b :: (trimL s).reverse := by simp
    rw [pyStrip, pyStrip, h1, h2, trimL_cons_ws h]

theorem pyStrip_ends {a b : Char} {m : List Char} (ha : wsChar a = false)
    (hb : wsChar b = false) : pyStrip (a :: (m ++ [b])) = a :: (m ++ [b]) := by
  rw [pyStrip, trimL_cons_not ha]
  have h1 : (a :: (m ++ [b])).reverse = b :: (m.reverse ++ [a]) := by simp
  rw [h1, trimL_cons_not hb, ← h1, List.reverse_reverse]

theorem pyStrip_idem (s : List Char) : pyStrip (pyStrip s) = pyStrip s := by
  rcases hBr : pyStrip s with _ | ⟨c, u⟩
  · rfl
  · have hBrev : (trimL ((trimL s).reverse)).reverse = c :: u := hBr
    obtain ⟨p, hp⟩ := trimL_decomp (trimL s).reverse
    have hA : trimL s = c :: (u ++ p.reverse) := by
      have h1 := congrArg List.reverse hp
      rw [List.reverse_reverse, List.reverse_append, hBrev] at h1
      simpa using h1
    have hc : wsChar c = false := trimL_head hA
    rw [pyStrip, trimL_cons_not hc]
    have hBB : trimL ((c :: u).reverse) = (c :: u).reverse := by
      have h3 : (c :: u).reverse = trimL ((trimL s).reverse) := by
        rw [← hBrev, List.reverse_reverse]
      rw [h3, trimL_idem, ← h3]
    rw [hBB, List.reverse_reverse]

theorem pyStrip_part_not_seg {pat s : List Char} (h : containsSeg pat s = false) :
    containsSeg pat (pyStrip s) = false := by
  obtain ⟨p, q, hpq⟩ := pyStrip_decomp s
  exact containsSeg_part_not hpq h

theorem pyStrip_part_mem {x : Char} {s : List Char} (hx : x ∈ pyStrip s) : x ∈ s := by
  obtain ⟨p, q, hpq⟩ := pyStrip_decomp s
  exact mem_part hpq hx

/-! ### Lemmas: line splitting -/

theorem linesNL_ne_nil (s : List Char) : linesNL s ≠ [] := by
  cases s with
  | nil => simp [linesNL]
  | cons c t =>
    rw [linesNL]
    by_cases hc : c = '\n'
    · simp [hc]
    · simp only [hc, if_false]
      cases linesNL t <;> simp

theorem unlines_cons_of_ne {l : List Char} {ls : List (List Char)} (h : ls ≠ []) :
    unlinesNL (l :: ls) = l ++ '\n' :: unlinesNL ls := by
  cases ls with
  | nil => exact absurd rfl h
  | cons l' ls' => rw [unlinesNL]

theorem unlines_lines (s : List Char) : unlinesNL (linesNL s) = s := by
  induction s with
  | nil => rfl
  | cons c t ih =>
    by_cases hc : c = '\n'
    · subst hc
      have h1 : linesNL ('\n' :: t) = [] :: linesNL t := by
        rw [linesNL]
        simp
      rw [h1, unlines_cons_of_ne (linesNL_ne_nil t), ih]
      rfl
    · cases hl : linesNL t with
      | nil => exact absurd hl (linesNL_ne_nil t)
      | cons l ls =>
        have h1 : linesNL (c :: t) = (c :: l) :: ls := by
          rw [linesNL, hl]
          simp [hc]
        rw [hl] at ih
        rw [h1]
        cases ls with
        | nil => simpa [unlinesNL] using ih
        | cons l' ls' =>
          rw [unlinesNL] at ih ⊢
          simpa using ih

theorem linesNL_append (a b : List Char) :
    linesNL (a ++ '\n' :: b) = linesNL a ++ linesNL b := by
  induction a with
  | nil => simp [linesNL]
  | cons c t ih =>
    by_cases hc : c = '\n'
    · subst hc
      rw [List.cons_append, linesNL, linesNL]
      simp [ih]
    · rw [List.cons_append, linesNL]
      simp only [hc, if_false]
      rw [ih, linesNL]
      simp only [hc, if_false]
      cases hl : linesNL t with
      | nil => exact absurd hl (linesNL_ne_nil t)
      | cons l ls => simp

theorem linesNL_no_nl {a : List Char} (h : '\n' ∉ a) : linesNL a = [a] := by
  induction a with
  | nil => rfl
  | cons c t ih =>
    have hc : c ≠ '\n' := fun hh => h (by simp [hh])
    rw [linesNL]
    simp only [hc, if_false]
    rw [ih (fun hh => h (by simp [hh]))]

theorem linesNL_head_part (s : List Char) :
    ∃ l ls q, linesNL s = l :: ls ∧ s = l ++ q := by
  induction s with
  | nil => exact ⟨[], [], [], rfl, rfl⟩
  | cons c t ih =>
    by_cases hc : c = '\n'
    · subst hc
      exact ⟨[], linesNL t, '\n' :: t, by rw [linesNL]; simp, rfl⟩
    · obtain ⟨l, ls, q, hl, hq⟩ := ih
      refine ⟨c :: l, ls, q, ?_, by simp [hq]⟩
      rw [linesNL]
      simp only [hc, if_false, hl]

theorem linesNL_part {l s : List Char} (h : l ∈ linesNL s) : ∃ p q, s = p ++ l ++ q := by
  induction s generalizing l with
  | nil =>
    simp [linesNL] at h
    exact ⟨[], [], by simp [h]⟩
  | cons c t ih =>
    by_cases hc : c = '\n'
    · subst hc
      rw [linesNL, if_pos rfl] at h
      rcases List.mem_cons.mp h with rfl | h
      · exact ⟨[], '\n' :: t, by simp⟩
      · obtain ⟨p, q, hpq⟩ := ih h
        exact ⟨'\n' :: p, q, by simp [hpq]⟩
    · rw [linesNL] at h
      simp only [hc, if_false] at h
      obtain ⟨l', ls, q, hl, hq⟩ := linesNL_head_part t
      rw [hl] at h
      rcases List.mem_cons.mp h with rfl | h
      · exact ⟨[], q, by simp [hq]⟩
      · have : l ∈ linesNL t := by rw [hl]; exact List.mem_cons_of_mem _ h
        obtain ⟨p, q', hpq⟩ := ih this
        exact ⟨c :: p, q', by simp [hpq]⟩

theorem mem_of_mem_linesNL {x : Char} {l s : List Char} (hx : x ∈ l)
    (hl : l ∈ linesNL s) : x ∈ s := by
  obtain ⟨p, q, hpq⟩ := linesNL_part hl
  exact mem_part hpq hx

theorem unlines_concat_nil {ls : List (List Char)} (h : ls ≠ []) :
    unlinesNL (ls ++ [[]]) = unlinesNL ls ++ ['\n'] := by
  induction ls with
  | nil => exact absurd rfl h
  | cons l ls ih =>
    cases ls with
    | nil => rfl
    | cons l' ls' =>
      rw [List.cons_append, unlines_cons_of_ne (by simp), unlinesNL, ih (by simp)]
      simp

/-! ### Lemmas: fence substitutions -/

theorem leadsWithCI_bt3json_bt3 {l : List Char} (h : leadsWithCI bt3json l = true) :
    leadsWith bt3 l = true := by
  match l with
  | [] => simp [leadsWithCI] at h
  | [c1] => simp [leadsWithCI] at h
  | [c1, c2] => simp [leadsWithCI] at h
  | c1 :: c2 :: c3 :: r =>
    have hb : ucInv bq = bq := by decide
    simp only [bt3json, bt3, cs, leadsWithCI, hb, Bool.or_self, Bool.and_eq_true,
      beq_iff_eq, List.cons_append, List.nil_append] at h
    simp [leadsWith, bt3, h.1, h.2.1, h.2.2.1]

theorem bq_of_leadsWith_bt3 {l : List Char} (h : leadsWith bt3 l = true) : bq ∈ l := by
  obtain ⟨q, rfl⟩ := leadsWith_iff.mp h
  simp [bt3]

theorem lineSubOpen_id {l : List Char} (h : bq ∉ l) : lineSubOpen l = l := by
  rw [lineSubOpen]
  have h3 : leadsWith bt3 l = false := by
    by_contra hc
    exact h (bq_of_leadsWith_bt3 (eq_true_of_ne_false hc))
  have h7 : leadsWithCI bt3json l = false := by
    by_contra hc
    have := leadsWithCI_bt3json_bt3 (eq_true_of_ne_false hc)
    rw [this] at h3
    cases h3
  rw [h7, h3]
  simp

theorem lineSubClose_id {l : List Char} (h : bq ∉ l) : lineSubClose l = l := by
  rw [lineSubClose]
  have h3 : leadsWith bt3 l.reverse = false := by
    by_contra hc
    have := bq_of_leadsWith_bt3 (eq_true_of_ne_false hc)
    exact h (List.mem_reverse.mp this)
  rw [h3]
  simp

theorem map_id_of_fix {f : List Char → List Char} {ls : List (List Char)}
    (h : ∀ l ∈ ls, f l = l) : ls.map f = ls := by
  induction ls with
  | nil => rfl
  | cons l ls ih =>
    rw [List.map_cons, h l (by simp), ih (fun x hx => h x (by simp [hx]))]

theorem subFenceOpen_id_no_bq {s : List Char} (h : bq ∉ s) : subFenceOpen s = s := by
  rw [subFenceOpen, map_id_of_fix, unlines_lines]
  intro l hl
  exact lineSubOpen_id (fun hx => h (mem_of_mem_linesNL hx hl))

theorem subFenceClose_id_no_bq {s : List Char} (h : bq ∉ s) : subFenceClose s = s := by
  rw [subFenceClose, map_id_of_fix, unlines_lines]
  intro l hl
  exact lineSubClose_id (fun hx => h (mem_of_mem_linesNL hx hl))

theorem subFenceOpen_id_no_seg {s : List Char} (h : containsSeg bt3 s = false) :
    subFenceOpen s = s := by
  rw [subFenceOpen, map_id_of_fix, unlines_lines]
  intro l hl
  obtain ⟨p, q, hpq⟩ := linesNL_part hl
  rw [lineSubOpen]
  have h3 : leadsWith bt3 l = false := by
    by_contra hc
    obtain ⟨q', rfl⟩ := leadsWith_iff.mp (eq_true_of_ne_false hc)
    have : containsSeg bt3 s = true :=
      containsSeg_part hpq (containsSeg_iff.mpr ⟨[], q', by simp⟩)
    rw [this] at h
    cases h
  have h7 : leadsWithCI bt3json l = false := by
    by_contra hc
    have := leadsWithCI_bt3json_bt3 (eq_true_of_ne_false hc)
    rw [this] at h3
    cases h3
  rw [h7, h3]
  simp

theorem subFenceClose_id_no_seg {s : List Char} (h : containsSeg bt3 s = false) :
    subFenceClose s = s := by
  rw [subFenceClose, map_id_of_fix, unlines_lines]
  intro l hl
  obtain ⟨p, q, hpq⟩ := linesNL_part hl
  rw [lineSubClose]
  have h3 : leadsWith bt3 l.reverse = false := by
    by_contra hc
    obtain ⟨q', hq'⟩ := leadsWith_iff.mp (eq_true_of_ne_false hc)
    have hl' : l = q'.reverse ++ bt3 := by
      have := congrArg List.reverse hq'
      simpa [bt3] using this
    have : containsSeg bt3 s = true :=
      containsSeg_part hpq (containsSeg_iff.mpr ⟨q'.reverse, [], by simp [hl']⟩)
    rw [this] at h
    cases h
  rw [h3]
  simp

/-! ### Lemmas: tag search -/

theorem open_head_false {c : Char} {s : List Char} (hc : c ≠ '<') :
    leadsWithCI openResp (c :: s) = false ∧ leadsWithCI openJsonT (c :: s) = false ∧
    leadsWithCI closeResp (c :: s) = false ∧ leadsWithCI closeJsonT (c :: s) = false := by
  have h1 : ucInv '<' = '<' := by decide
  refine ⟨?_, ?_, ?_, ?_⟩ <;>
    exact leadsWithCI_head_false hc (by rw [h1]; exact hc)

theorem findTagContent_none {s : List Char} (h : '<' ∉ s) : findTagContent s = none := by
  induction s with
  | nil => rfl
  | cons c t ih =>
    have hc : c ≠ '<' := fun hh => h (by simp [hh])
    obtain ⟨h1, h2, _, _⟩ := open_head_false (s := t) hc
    rw [findTagContent, h1, h2]
    simp only [Bool.false_eq_true, if_false]
    exact ih (fun hx => h (by simp [hx]))

theorem findCloseTag_append {m r : List Char} (h : '<' ∉ m) :
    findCloseTag (m ++ r) = (findCloseTag r).map (fun x => m ++ x) := by
  induction m with
  | nil =>
    cases hr : findCloseTag r <;> simp [hr]
  | cons c t ih =>
    have hc : c ≠ '<' := fun hh => h (by simp [hh])
    obtain ⟨_, _, h3, h4⟩ := open_head_false (s := t ++ r) hc
    rw [List.cons_append, findCloseTag, h3, h4]
    simp only [Bool.or_self, Bool.false_eq_true, if_false]
    rw [ih (fun hx => h (by simp [hx]))]
    cases hr : findCloseTag r <;> simp

theorem findCloseTag_closeResp (r : List Char) : findCloseTag (closeResp ++ r) = some [] := rfl

theorem findCloseTag_closeJsonT (r : List Char) : findCloseTag (closeJsonT ++ r) = some [] := rfl

theorem findCloseTag_mid_resp {m r : List Char} (h : '<' ∉ m) :
    findCloseTag (m ++ (closeResp ++ r)) = some m := by
  rw [findCloseTag_append h, findCloseTag_closeResp]
  simp

theorem findCloseTag_mid_jsonT {m r : List Char} (h : '<' ∉ m) :
    findCloseTag (m ++ (closeJsonT ++ r)) = some m := by
  rw [findCloseTag_append h, findCloseTag_closeJsonT]
  simp

theorem findTag_cons_open {c : Char} {s m : List Char}
    (h : leadsWithCI openResp (c :: s) = true)
    (h2 : findCloseTag (List.drop 10 (c :: s)) = some m) :
    findTagContent (c :: s) = some m := by
  rw [findTagContent, h, h2]
  simp

theorem findTag_cons_openJ {c : Char} {s m : List Char}
    (h : leadsWithCI openResp (c :: s) = false)
    (h1 : leadsWithCI openJsonT (c :: s) = true)
    (h2 : findCloseTag (List.drop 6 (c :: s)) = some m) :
    findTagContent (c :: s) = some m := by
  rw [findTagContent, h, h1, h2]
  simp

theorem findTag_wrap_resp {m r : List Char} (hm : '<' ∉ m) :
    findTagContent (openResp ++ (m ++ (closeResp ++ r))) = some m := by
  have h2 : findCloseTag (List.drop 10 (openResp ++ (m ++ (closeResp ++ r)))) = some m := by
    have hd : List.drop 10 (openResp ++ (m ++ (closeResp ++ r))) = m ++ (closeResp ++ r) := rfl
    rw [hd]
    exact findCloseTag_mid_resp hm
  exact findTag_cons_open (by rfl) h2

theorem findTag_wrap_jsonT {m r : List Char} (hm : '<' ∉ m) :
    findTagContent (openJsonT ++ (m ++ (closeJsonT ++ r))) = some m := by
  have h2 : findCloseTag (List.drop 6 (openJsonT ++ (m ++ (closeJsonT ++ r)))) = some m := by
    have hd : List.drop 6 (openJsonT ++ (m ++ (closeJsonT ++ r))) = m ++ (closeJsonT ++ r) := rfl
    rw [hd]
    exact findCloseTag_mid_jsonT hm
  exact findTag_cons_openJ (by rfl) (by rfl) h2

/-! ### Lemmas: the Normalizer's output as a subsequence -/

theorem part_sublist {m p q s : List Char} (hs : s = p ++ m ++ q) : List.Sublist m s := by
  subst hs
  exact List.Sublist.trans (List.sublist_append_left m q)
    (by rw [List.append_assoc]; exact List.sublist_append_right p (m ++ q))

theorem pyStrip_sublist (s : List Char) : List.Sublist (pyStrip s) s := by
  obtain ⟨p, q, hpq⟩ := pyStrip_decomp s
  exact part_sublist hpq

theorem lineSubOpen_sublist (l : List Char) : List.Sublist (lineSubOpen l) l := by
  rw [lineSubOpen]
  by_cases h7 : leadsWithCI bt3json l = true
  · rw [h7]
    simpa using List.drop_sublist 7 l
  · simp only [h7, if_false]
    by_cases h3 : leadsWith bt3 l = true
    · rw [h3]
      simpa using List.drop_sublist 3 l
    · simp only [h3, if_false]
      exact List.Sublist.refl l

theorem lineSubClose_sublist (l : List Char) : List.Sublist (lineSubClose l) l := by
  rw [lineSubClose]
  by_cases h3 : leadsWith bt3 l.reverse = true
  · rw [h3]
    simp only [if_true]
    have := List.Sublist.reverse (List.drop_sublist 3 l.reverse)
    simpa using this
  · simp only [h3, if_false]
    exact List.Sublist.refl l

theorem unlines_map_sublist {f : List Char → List Char}
    (hf : ∀ l, List.Sublist (f l) l) :
    ∀ ls : List (List Char), List.Sublist (unlinesNL (ls.map f)) (unlinesNL ls)
  | [] => List.Sublist.refl _
  | [l] => by simpa [unlinesNL] using hf l
  | l :: l' :: ls => by
    rw [List.map_cons, List.map_cons]
    have h1 : unlinesNL (f l :: f l' :: List.map f ls) =
        f l ++ '\n' :: unlinesNL (f l' :: List.map f ls) := rfl
    have h2 : unlinesNL (l :: l' :: ls) = l ++ '\n' :: unlinesNL (l' :: ls) := rfl
    rw [h1, h2]
    exact List.Sublist.append (hf l)
      (List.Sublist.cons₂ '\n' (by
        have := unlines_map_sublist hf (l' :: ls)
        simpa using this))

theorem subFenceOpen_sublist (s : List Char) : List.Sublist (subFenceOpen s) s := by
  rw [subFenceOpen]
  have := unlines_map_sublist lineSubOpen_sublist (linesNL s)
  rwa [unlines_lines] at this

theorem subFenceClose_sublist (s : List Char) : List.Sublist (subFenceClose s) s := by
  rw [subFenceClose]
  have := unlines_map_sublist lineSubClose_sublist (linesNL s)
  rwa [unlines_lines] at this

theorem findCloseTag_sublist {s m : List Char} (h : findCloseTag s = some m) :
    List.Sublist m s := by
  induction s generalizing m with
  | nil => simp [findCloseTag] at h
  | cons c t ih =>
    rw [findCloseTag] at h
    by_cases hc : (leadsWithCI closeResp (c :: t) || leadsWithCI closeJsonT (c :: t)) = true
    · rw [hc] at h
      simp only [if_true] at h
      injection h with h1
      rw [← h1]
      exact List.nil_sublist _
    · simp only [hc, if_false] at h
      cases hm : findCloseTag t with
      | none => rw [hm] at h; cases h
      | some m' =>
        rw [hm] at h
        injection h with h1
        rw [← h1]
        exact List.Sublist.cons₂ c (ih hm)

theorem findTagContent_sublist {s m : List Char} (h : findTagContent s = some m) :
    List.Sublist m s := by
  induction s generalizing m with
  | nil => simp [findTagContent] at h
  | cons c t ih =>
    rw [findTagContent] at h
    by_cases h1 : leadsWithCI openResp (c :: t) = true
    · rw [h1] at h
      simp only [if_true] at h
      cases hm : findCloseTag (List.drop 10 (c :: t)) with
      | none =>
        rw [hm] at h
        exact List.Sublist.trans (ih h) (List.sublist_cons_self c t)
      | some m' =>
        rw [hm] at h
        injection h with h2
        rw [← h2]
        exact List.Sublist.trans (findCloseTag_sublist hm) (List.drop_sublist 10 (c :: t))
    · simp only [h1, if_false] at h
      by_cases h2 : leadsWithCI openJsonT (c :: t) = true
      · rw [h2] at h
        simp only [if_true] at h
        cases hm : findCloseTag (List.drop 6 (c :: t)) with
        | none =>
          rw [hm] at h
          exact List.Sublist.trans (ih h) (List.sublist_cons_self c t)
        | some m' =>
          rw [hm] at h
          injection h with h3
          rw [← h3]
          exact List.Sublist.trans (findCloseTag_sublist hm) (List.drop_sublist 6 (c :: t))
      · simp only [h2, if_false] at h
        exact List.Sublist.trans (ih h) (List.sublist_cons_self c t)

theorem extract_sublist (t : List Char) :
    List.Sublist (extract_json_from_xml_or_markdown t) t := by
  rw [extract_json_from_xml_or_markdown]
  by_cases ht : t = []
  · simp [ht, pyStrip_nil]
  · simp only [ht, if_false]
    have s1 : List.Sublist (subFenceOpen (pyStrip t)) t :=
      List.Sublist.trans (subFenceOpen_sublist _) (pyStrip_sublist t)
    have s2 : List.Sublist (subFenceClose (pyStrip (subFenceOpen (pyStrip t)))) t :=
      List.Sublist.trans (subFenceClose_sublist _)
        (List.Sublist.trans (pyStrip_sublist _) s1)
    cases hm : findTagContent (subFenceClose (pyStrip (subFenceOpen (pyStrip t)))) with
    | some m =>
      simp only [hm]
      exact List.Sublist.trans (pyStrip_sublist m)
        (List.Sublist.trans (findTagContent_sublist hm) s2)
    | none =>
      simp only [hm]
      exact List.Sublist.trans (pyStrip_sublist _) s2

/-! ### Lemmas: evaluating the Normalizer on wrapped and unwrapped forms -/

theorem extract_stripped (t : List Char) :
    pyStrip (extract_json_from_xml_or_markdown t) = extract_json_from_xml_or_markdown t := by
  rw [extract_json_from_xml_or_markdown]
  by_cases ht : t = []
  · simp [ht, pyStrip_nil]
  · simp only [ht, if_false]
    cases hm : findTagContent (subFenceClose (pyStrip (subFenceOpen (pyStrip t)))) with
    | some m => simp only [hm, pyStrip_idem]
    | none => simp only [hm, pyStrip_idem]

theorem extract_clean {t : List Char} (hseg : containsSeg bt3 t = false)
    (hlt : '<' ∉ t) : extract_json_from_xml_or_markdown t = pyStrip t := by
  by_cases ht : t = []
  · subst ht
    rfl
  · have h1 : containsSeg bt3 (pyStrip t) = false := pyStrip_part_not_seg hseg
    have h2 : '<' ∉ pyStrip t := fun hx => hlt (pyStrip_part_mem hx)
    rw [extract_json_from_xml_or_markdown]
    simp only [ht, if_false]
    rw [subFenceOpen_id_no_seg h1, pyStrip_idem, subFenceClose_id_no_seg h1,
      findTagContent_none h2, pyStrip_idem]

theorem extract_fence_core (lang c : List Char)
    (hopen : lineSubOpen (bt3 ++ lang) = [])
    (hnl : '\n' ∉ bt3 ++ lang)
    (hbq : bq ∉ c) :
    extract_json_from_xml_or_markdown (bt3 ++ lang ++ '\n' :: (c ++ '\n' :: bt3)) =
      (match findTagContent (pyStrip c) with
       | some m => pyStrip m
       | none => pyStrip (pyStrip c)) := by
  have hwbq : wsChar bq = false := by decide
  have hwnl : wsChar '\n' = true := by decide
  have hnlb : '\n' ∉ bt3 := by decide
  have ht : bt3 ++ lang ++ '\n' :: (c ++ '\n' :: bt3) ≠ [] := by simp [bt3]
  have hshape : bt3 ++ lang ++ '\n' :: (c ++ '\n' :: bt3) =
      bq :: ((bq :: bq :: (lang ++ '\n' :: (c ++ '\n' :: [bq, bq]))) ++ [bq]) := by
    simp [bt3, List.append_assoc]
  have hstrip : pyStrip (bt3 ++ lang ++ '\n' :: (c ++ '\n' :: bt3)) =
      bt3 ++ lang ++ '\n' :: (c ++ '\n' :: bt3) := by
    rw [hshape, pyStrip_ends hwbq hwbq, ← hshape]
  have hlines : linesNL (bt3 ++ lang ++ '\n' :: (c ++ '\n' :: bt3)) =
      (bt3 ++ lang) :: (linesNL c ++ [bt3]) := by
    rw [linesNL_append, linesNL_append, linesNL_no_nl hnl, linesNL_no_nl hnlb]
    simp
  have hb3 : lineSubOpen bt3 = [] := by decide
  have hmap : (linesNL (bt3 ++ lang ++ '\n' :: (c ++ '\n' :: bt3))).map lineSubOpen =
      [] :: (linesNL c ++ [[]]) := by
    rw [hlines, List.map_cons, List.map_append, hopen,
      map_id_of_fix (fun l hl => lineSubOpen_id (fun hx => hbq (mem_of_mem_linesNL hx hl)))]
    simp [hb3]
  have hsub : subFenceOpen (bt3 ++ lang ++ '\n' :: (c ++ '\n' :: bt3)) =
      '\n' :: (c ++ ['\n']) := by
    rw [subFenceOpen, hmap, unlines_cons_of_ne (by simp),
      unlines_concat_nil (linesNL_ne_nil c), unlines_lines]
    simp
  rw [extract_json_from_xml_or_markdown, if_neg ht]
  dsimp only
  rw [hstrip, hsub, pyStrip_cons_ws hwnl, pyStrip_concat_ws hwnl,
    subFenceClose_id_no_bq (fun hx => hbq (pyStrip_part_mem hx))]

theorem extract_fence_json {c : List Char} (hbq : bq ∉ c) (hlt : '<' ∉ c) :
    extract_json_from_xml_or_markdown (bt3 ++ cs "json" ++ '\n' :: (c ++ '\n' :: bt3)) =
      pyStrip c := by
  rw [extract_fence_core (cs "json") c (by decide) (by decide) hbq,
    findTagContent_none (fun hx => hlt (pyStrip_part_mem hx)), pyStrip_idem]

theorem extract_fence_bare {c : List Char} (hbq : bq ∉ c) (hlt : '<' ∉ c) :
    extract_json_from_xml_or_markdown (bt3 ++ '\n' :: (c ++ '\n' :: bt3)) = pyStrip c := by
  have h0 : bt3 ++ '\n' :: (c ++ '\n' :: bt3) = bt3 ++ [] ++ '\n' :: (c ++ '\n' :: bt3) := by
    simp
  rw [h0, extract_fence_core [] c (by decide) (by decide) hbq,
    findTagContent_none (fun hx => hlt (pyStrip_part_mem hx)), pyStrip_idem]

theorem tag_body_no_bq {c : List Char} (hbq : bq ∉ c) (o cl : List Char)
    (ho : bq ∉ o) (hcl : bq ∉ cl) : bq ∉ o ++ (c ++ cl) := by
  intro hx
  rcases List.mem_append.mp hx with h | h
  · exact ho h
  · rcases List.mem_append.mp h with h | h
    · exact hbq h
    · exact hcl h

theorem extract_tag_resp {c : List Char} (hbq : bq ∉ c) (hlt : '<' ∉ c) :
    extract_json_from_xml_or_markdown (openResp ++ (c ++ closeResp)) = pyStrip c := by
  have hwlt : wsChar '<' = false := by decide
  have hwgt : wsChar '>' = false := by decide
  have e1 : openResp = '<' :: cs "response>" := rfl
  have e2 : closeResp = cs "</response" ++ ['>'] := by decide
  have ht : openResp ++ (c ++ closeResp) ≠ [] := by
    rw [e1]
    simp
  have hshape : openResp ++ (c ++ closeResp) =
      '<' :: ((cs "response>" ++ (c ++ cs "</response")) ++ ['>']) := by
    rw [e1, e2]
    simp [List.append_assoc]
  have hstrip : pyStrip (openResp ++ (c ++ closeResp)) = openResp ++ (c ++ closeResp) := by
    rw [hshape, pyStrip_ends hwlt hwgt, ← hshape]
  have hbqt : bq ∉ openResp ++ (c ++ closeResp) :=
    tag_body_no_bq hbq openResp closeResp (by decide) (by decide)
  have hfind : findTagContent (openResp ++ (c ++ closeResp)) = some c := by
    have h0 : openResp ++ (c ++ closeResp) = openResp ++ (c ++ (closeResp ++ [])) := by simp
    rw [h0]
    exact findTag_wrap_resp hlt
  rw [extract_json_from_xml_or_markdown, if_neg ht]
  dsimp only
  rw [hstrip, subFenceOpen_id_no_bq hbqt, hstrip, subFenceClose_id_no_bq hbqt, hfind]

theorem extract_tag_json {c : List Char} (hbq : bq ∉ c) (hlt : '<' ∉ c) :
    extract_json_from_xml_or_markdown (openJsonT ++ (c ++ closeJsonT)) = pyStrip c := by
  have hwlt : wsChar '<' = false := by decide
  have hwgt : wsChar '>' = false := by decide
  have e1 : openJsonT = '<' :: cs "json>" := rfl
  have e2 : closeJsonT = cs "</json" ++ ['>'] := by decide
  have ht : openJsonT ++ (c ++ closeJsonT) ≠ [] := by
    rw [e1]
    simp
  have hshape : openJsonT ++ (c ++ closeJsonT) =
      '<' :: ((cs "json>" ++ (c ++ cs "</json")) ++ ['>']) := by
    rw [e1, e2]
    simp [List.append_assoc]
  have hstrip : pyStrip (openJsonT ++ (c ++ closeJsonT)) = openJsonT ++ (c ++ closeJsonT) := by
    rw [hshape, pyStrip_ends hwlt hwgt, ← hshape]
  have hbqt : bq ∉ openJsonT ++ (c ++ closeJsonT) :=
    tag_body_no_bq hbq openJsonT closeJsonT (by decide) (by decide)
  have hfind : findTagContent (openJsonT ++ (c ++ closeJsonT)) = some c := by
    have h0 : openJsonT ++ (c ++ closeJsonT) = openJsonT ++ (c ++ (closeJsonT ++ [])) := by simp
    rw [h0]
    exact findTag_wrap_jsonT hlt
  rw [extract_json_from_xml_or_markdown, if_neg ht]
  dsimp only
  rw [hstrip, subFenceOpen_id_no_bq hbqt, hstrip, subFenceClose_id_no_bq hbqt, hfind]

theorem extract_fence_tag {c : List Char} (hbq : bq ∉ c) (hlt : '<' ∉ c) :
    extract_json_from_xml_or_markdown
      (bt3 ++ cs "json" ++ '\n' :: ((openResp ++ (c ++ closeResp)) ++ '\n' :: bt3)) =
      pyStrip c := by
  have hwlt : wsChar '<' = false := by decide
  have hwgt : wsChar '>' = false := by decide
  have hbqm : bq ∉ openResp ++ (c ++ closeResp) :=
    tag_body_no_bq hbq openResp closeResp (by decide) (by decide)
  rw [extract_fence_core (cs "json") (openResp ++ (c ++ closeResp)) (by decide) (by decide) hbqm]
  have e1 : openResp = '<' :: cs "response>" := rfl
  have e2 : closeResp = cs "</response" ++ ['>'] := by decide
  have hshape : openResp ++ (c ++ closeResp) =
      '<' :: ((cs "response>" ++ (c ++ cs "</response")) ++ ['>']) := by
    rw [e1, e2]
    simp [List.append_assoc]
  have hstrip : pyStrip (openResp ++ (c ++ closeResp)) = openResp ++ (c ++ closeResp) := by
    rw [hshape, pyStrip_ends hwlt hwgt, ← hshape]
  have hfind : findTagContent (openResp ++ (c ++ closeResp)) = some c := by
    have h0 : openResp ++ (c ++ closeResp) = openResp ++ (c ++ (closeResp ++ [])) := by simp
    rw [h0]
    exact findTag_wrap_resp hlt
  rw [hstrip, hfind]

/-! ### Lemmas: the best-match scan -/

theorem bestFold_zero {α : Type} (score : α → Nat) (l : List α) (acc : Option α × Nat) :
    (l.foldl (fun a d => if a.2 < score d then (some d, score d) else a) acc).2 = 0 ↔
      acc.2 = 0 ∧ ∀ d ∈ l, score d = 0 := by
  induction l generalizing acc with
  | nil => simp
  | cons d l ih =>
    rw [List.foldl_cons]
    by_cases h : acc.2 < score d
    · rw [if_pos h, ih]
      simp only [List.mem_cons, forall_eq_or_imp]
      constructor
      · rintro ⟨h1, _⟩
        exact absurd h (by omega)
      · rintro ⟨_, h2, _⟩
        exact absurd h (by omega)
    · rw [if_neg h, ih]
      simp only [List.mem_cons, forall_eq_or_imp]
      constructor
      · rintro ⟨h1, h2⟩
        exact ⟨h1, by omega, h2⟩
      · rintro ⟨h1, _, h3⟩
        exact ⟨h1, h3⟩

theorem bestFold_none {α : Type} (score : α → Nat) (l : List α) (acc : Option α × Nat)
    (hacc : acc.1 = Option.none ↔ acc.2 = 0) :
    (l.foldl (fun a d => if a.2 < score d then (some d, score d) else a) acc).1 = Option.none ↔
      (l.foldl (fun a d => if a.2 < score d then (some d, score d) else a) acc).2 = 0 := by
  induction l generalizing acc with
  | nil => simpa using hacc
  | cons d l ih =>
    rw [List.foldl_cons]
    by_cases h : acc.2 < score d
    · rw [if_pos h]
      exact ih _ (by constructor <;> (intro hh; simp at hh) <;> omega)
    · rw [if_neg h]
      exact ih _ hacc

theorem bestFold_le {α : Type} (score : α → Nat) (l : List α) (acc : Option α × Nat)
    (B : Nat) (hall : ∀ d ∈ l, score d ≤ B) (hacc : acc.2 ≤ B) :
    (l.foldl (fun a d => if a.2 < score d then (some d, score d) else a) acc).2 ≤ B := by
  induction l generalizing acc with
  | nil => simpa using hacc
  | cons d l ih =>
    rw [List.foldl_cons]
    by_cases h : acc.2 < score d
    · rw [if_pos h]
      exact ih _ (fun x hx => hall x (by simp [hx])) (hall d (by simp))
    · rw [if_neg h]
      exact ih _ (fun x hx => hall x (by simp [hx])) hacc

theorem bestFold_fix {α : Type} (score : α → Nat) (l : List α) (d₀ : α) (n : Nat)
    (hall : ∀ d ∈ l, score d ≤ n) :
    l.foldl (fun a d => if a.2 < score d then (some d, score d) else a) (some d₀, n) =
      (some d₀, n) := by
  induction l with
  | nil => rfl
  | cons d l ih =>
    rw [List.foldl_cons, if_neg (by have := hall d (by simp); simp; omega)]
    exact ih (fun x hx => hall x (by simp [hx]))

theorem bestScan_zero {α : Type} (score : α → Nat) (l : List α) :
    (bestScan score l).2 = 0 ↔ ∀ d ∈ l, score d = 0 := by
  rw [bestScan, bestFold_zero]
  simp

theorem bestScan_none {α : Type} (score : α → Nat) (l : List α) :
    (bestScan score l).1 = Option.none ↔ (bestScan score l).2 = 0 := by
  rw [bestScan]
  exact bestFold_none score l (Option.none, 0) (by simp)

theorem bestScan_le {α : Type} (score : α → Nat) (l : List α) (B : Nat)
    (hall : ∀ d ∈ l, score d ≤ B) : (bestScan score l).2 ≤ B := by
  rw [bestScan]
  exact bestFold_le score l (Option.none, 0) B hall (by omega)

theorem bestScan_cons_max {α : Type} (score : α → Nat) (d₀ : α) (l : List α) (n : Nat)
    (h0 : score d₀ = n) (hpos : 0 < n) (hall : ∀ d ∈ l, score d ≤ n) :
    bestScan score (d₀ :: l) = (some d₀, n) := by
  rw [bestScan, List.foldl_cons, if_pos (by simpa [h0] using hpos)]
  rw [h0]
  exact bestFold_fix score l d₀ n hall

/-! ### Lemmas: the common matcher shape -/

theorem matcher_shape {α : Type} (score : α → Nat) (l : List α) (L : Nat → String) (k B : Nat)
    (hk : 0 < k) (hB : ∀ d ∈ l, score d ≤ B) (hBk : B ≤ k)
    (hL : ∀ n, 0 < n → L n ≠ "Unknown")
    (r : MatchOut α)
    (hr : r = (if (bestScan score l).1.isSome ∧ 0 < (bestScan score l).2
               then MatchOut.res (bestScan score l).1 (L (bestScan score l).2)
                      (((bestScan score l).2 : Rat) / (k : Rat))
               else MatchOut.res Option.none "Unknown" 0)) :
    (¬ isNoData r) ∧
    (matchLabel r = "Unknown" ↔ ∀ d ∈ l, score d = 0) ∧
    (matchLabel r = "Unknown" → matchConf r = 0 ∧ matchEnt r = Option.none) ∧
    matchConf r = ((bestScan score l).2 : Rat) / (k : Rat) ∧
    0 ≤ matchConf r ∧ matchConf r ≤ 1 := by
  subst hr
  by_cases hpos : 0 < (bestScan score l).2
  · have hsome : (bestScan score l).1.isSome := by
      rcases hopt : (bestScan score l).1 with _ | d
      · have := (bestScan_none score l).mp hopt
        omega
      · rfl
    rw [if_pos ⟨hsome, hpos⟩]
    have hlab : L (bestScan score l).2 ≠ "Unknown" := hL _ hpos
    have hle : (bestScan score l).2 ≤ k := le_trans (bestScan_le score l B hB) hBk
    refine ⟨by simp [isNoData], ?_, ?_, rfl, ?_, ?_⟩
    · simp only [matchLabel]
      constructor
      · intro h
        exact absurd h hlab
      · intro hall
        have := (bestScan_zero score l).mpr hall
        omega
    · intro h
      exact absurd h hlab
    · simp only [matchConf]
      positivity
    · simp only [matchConf]
      rw [div_le_one (by exact_mod_cast hk)]
      exact_mod_cast hle
  · have hz : (bestScan score l).2 = 0 := by omega
    rw [if_neg (by rintro ⟨_, h⟩; omega)]
    refine ⟨by simp [isNoData], ?_, fun _ => ⟨rfl, rfl⟩, ?_, le_refl 0, by simp [matchConf]⟩
    · simp only [matchLabel, true_iff]
      exact (bestScan_zero score l).mp hz
    · simp only [matchConf]
      rw [hz]
      norm_num

/-! ### Lemmas: per-scheme scores and matcher instances -/

theorem scorePhysician_le (first last : List Char) (d : Doctor) :
    scorePhysician first last d ≤ 2 := by
  rw [scorePhysician]
  split <;> split <;> omega

theorem scoreFacility_le (facility_name : List Char) (inst : Institution) :
    scoreFacility facility_name inst ≤ 2 := by
  rw [scoreFacility]
  split
  · omega
  · split <;> omega

theorem scoreLabReport_le (name test_type : List Char) (lt : LabTest) :
    scoreLabReport name test_type lt ≤ 3 := by
  rw [scoreLabReport]
  split <;> split <;> omega

theorem containsSeg_nil_pat (s : List Char) : containsSeg [] s = true := by
  cases s <;> simp [containsSeg, leadsWith]

theorem scorePhysician_empty (d : Doctor) : scorePhysician [] [] d = 2 := by
  simp [scorePhysician, pyLower, strIn, containsSeg_nil_pat]

theorem physician_shape (first last : List Char) (docs : List Doctor) (hd : docs ≠ []) :
    (¬ isNoData (_match_physician first last docs)) ∧
    (matchLabel (_match_physician first last docs) = "Unknown" ↔
      ∀ d ∈ docs, scorePhysician first last d = 0) ∧
    (matchLabel (_match_physician first last docs) = "Unknown" →
      matchConf (_match_physician first last docs) = 0 ∧
      matchEnt (_match_physician first last docs) = Option.none) ∧
    matchConf (_match_physician first last docs) =
      ((bestScan (scorePhysician first last) docs).2 : Rat) / (2 : Nat) ∧
    0 ≤ matchConf (_match_physician first last docs) ∧
    matchConf (_match_physician first last docs) ≤ 1 := by
  refine matcher_shape (scorePhysician first last) docs
    (fun n => if n = 2 then "Similar: Typo" else "Alternative") 2 2 (by omega)
    (fun d _ => scorePhysician_le first last d) (le_refl 2) ?_ _ ?_
  · intro n _
    dsimp only
    split <;> decide
  · rw [_match_physician, if_neg hd]
    norm_num

theorem facility_shape (facility_name : List Char) (insts : List Institution)
    (hd : insts ≠ []) :
    (¬ isNoData (_match_facility facility_name insts)) ∧
    (matchLabel (_match_facility facility_name insts) = "Unknown" ↔
      ∀ d ∈ insts, scoreFacility facility_name d = 0) ∧
    (matchLabel (_match_facility facility_name insts) = "Unknown" →
      matchConf (_match_facility facility_name insts) = 0 ∧
      matchEnt (_match_facility facility_name insts) = Option.none) ∧
    matchConf (_match_facility facility_name insts) =
      ((bestScan (scoreFacility facility_name) insts).2 : Rat) / (2 : Nat) ∧
    0 ≤ matchConf (_match_facility facility_name insts) ∧
    matchConf (_match_facility facility_name insts) ≤ 1 := by
  refine matcher_shape (scoreFacility facility_name) insts
    (fun n => if n = 2 then "Similar: Typo" else "Alternative") 2 2 (by omega)
    (fun d _ => scoreFacility_le facility_name d) (le_refl 2) ?_ _ ?_
  · intro n _
    dsimp only
    split <;> decide
  · rw [_match_facility, if_neg hd]
    norm_num

theorem lab_shape (name test_type : List Char) (labs : List LabTest) (hd : labs ≠ []) :
    (¬ isNoData (_match_lab_report name test_type labs)) ∧
    (matchLabel (_match_lab_report name test_type labs) = "Unknown" ↔
      ∀ d ∈ labs, scoreLabReport name test_type d = 0) ∧
    (matchLabel (_match_lab_report name test_type labs) = "Unknown" →
      matchConf (_match_lab_report name test_type labs) = 0 ∧
      matchEnt (_match_lab_report name test_type labs) = Option.none) ∧
    matchConf (_match_lab_report name test_type labs) =
      ((bestScan (scoreLabReport name test_type) labs).2 : Rat) / (3 : Nat) ∧
    0 ≤ matchConf (_match_lab_report name test_type labs) ∧
    matchConf (_match_lab_report name test_type labs) ≤ 1 := by
  refine matcher_shape (scoreLabReport name test_type) labs
    (fun n => if 2 ≤ n then "Similar: Typo" else "Alternative") 3 3 (by omega)
    (fun d _ => scoreLabReport_le name test_type d) (le_refl 3) ?_ _ ?_
  · intro n _
    dsimp only
    split <;> decide
  · rw [_match_lab_report, if_neg hd]
    norm_num

theorem conf_div_mono {a b k : Nat} (hk : 0 < k) (h : a ≤ b) :
    (a : Rat) / (k : Rat) ≤ (b : Rat) / (k : Rat) := by
  have ha : (a : Rat) ≤ (b : Rat) := by exact_mod_cast h
  rw [div_eq_mul_inv, div_eq_mul_inv]
  exact mul_le_mul_of_nonneg_right ha (by positivity)

/-! ### Lemmas: label sets and the experiment loop -/

theorem labelOk_of_shape {α : Type} (b : Option α × Nat) (thr : Prop) [Decidable thr] :
    labelOk (if b.1.isSome ∧ 0 < b.2
             then MatchOut.res b.1 (if thr then "Similar: Typo" else "Alternative")
                    ((b.2 : Rat) / (2 : Nat))
             else MatchOut.res Option.none "Unknown" 0) := by
  split
  · rw [labelOk]
    split
    · exact Or.inl rfl
    · exact Or.inr (Or.inl rfl)
  · exact Or.inr (Or.inr rfl)

theorem labelOk_of_shape3 {α : Type} (b : Option α × Nat) (thr : Prop) [Decidable thr] :
    labelOk (if b.1.isSome ∧ 0 < b.2
             then MatchOut.res b.1 (if thr then "Similar: Typo" else "Alternative")
                    ((b.2 : Rat) / (3 : Nat))
             else MatchOut.res Option.none "Unknown" 0) := by
  split
  · rw [labelOk]
    split
    · exact Or.inl rfl
    · exact Or.inr (Or.inl rfl)
  · exact Or.inr (Or.inr rfl)

theorem labelOk_physician (first last : List Char) (docs : List Doctor) :
    labelOk (_match_physician first last docs) := by
  rw [_match_physician]
  split
  · trivial
  · exact labelOk_of_shape _ _

theorem labelOk_facility (facility_name : List Char) (insts : List Institution) :
    labelOk (_match_facility facility_name insts) := by
  rw [_match_facility]
  split
  · trivial
  · exact labelOk_of_shape _ _

theorem labelOk_lab (name test_type : List Char) (labs : List LabTest) :
    labelOk (_match_lab_report name test_type labs) := by
  rw [_match_lab_report]
  split
  · trivial
  · exact labelOk_of_shape3 _ _

theorem runFold_all_err (gen : Nat → Except String GenOut) (l : List Nat) (acc : BatchAcc)
    (h : ∀ i ∈ l, ∃ e, gen i = Except.error e) :
    (l.foldl (runRep gen) acc).successes = acc.successes ∧
    (l.foldl (runRep gen) acc).details.length = acc.details.length + l.length ∧
    (∀ d ∈ (l.foldl (runRep gen) acc).details, d ∈ acc.details ∨ isErrRecord d) := by
  induction l generalizing acc with
  | nil =>
    refine ⟨rfl, by simp, fun d hd => Or.inl hd⟩
  | cons i l ih =>
    obtain ⟨e, he⟩ := h i (by simp)
    have hstep : runRep gen acc i =
        ⟨acc.successes, acc.tin, acc.tout, acc.tcost,
         acc.details ++ [RunDetail.err (i + 1) e]⟩ := by
      rw [runRep, he]
    rw [List.foldl_cons, hstep]
    obtain ⟨ih1, ih2, ih3⟩ := ih _ (fun x hx => h x (by simp [hx]))
    refine ⟨ih1, ?_, ?_⟩
    · rw [ih2]
      simp
      omega
    · intro d hd
      rcases ih3 d hd with hmem | herr
      · rcases List.mem_append.mp hmem with hmem' | hmem'
        · exact Or.inl hmem'
        · simp at hmem'
          subst hmem'
          exact Or.inr trivial
      · exact Or.inr herr

theorem no_bq_no_bt3 {s : List Char} (h : bq ∉ s) : containsSeg bt3 s = false := by
  by_contra hc
  obtain ⟨p, q, hpq⟩ := containsSeg_iff.mp (eq_true_of_ne_false hc)
  exact h (by rw [hpq]; simp [bt3])

theorem labelOk_ne_exact {α : Type} (r : MatchOut α) (h : labelOk r) :
    matchLabel r ≠ "Exact" := by
  cases r with
  | noData m =>
    rw [matchLabel]
    decide
  | res m lab conf =>
    rw [labelOk] at h
    rcases h with h | h | h <;> (rw [matchLabel, h]; decide)

/-! ### The claims -/

/-- C1: for the physician, facility and lab-report matching schemes on a
non-empty reference list, the result is a Match Result (never a
status-False record); its label is "Unknown" exactly when no reference
entity scored above zero, and then the confidence is 0.0 and the matched
entity is none; the confidence equals the best score divided by the
scheme's maximum attainable score (2 for the two-field schemes, 3 for
the three-field scheme), lies in the interval from 0 to 1, and is
monotone non-decreasing in the best containment score. -/
theorem C1_matcher_invariants
    (first last : List Char) (docs : List Doctor)
    (facility_name : List Char) (insts : List Institution)
    (pname ttype : List Char) (labs : List LabTest)
    (hdocs : docs ≠ []) (hinsts : insts ≠ []) (hlabs : labs ≠ []) :
    ((¬ isNoData (_match_physician first last docs)) ∧
     (matchLabel (_match_physician first last docs) = "Unknown" ↔
        ∀ d ∈ docs, scorePhysician first last d = 0) ∧
     (matchLabel (_match_physician first last docs) = "Unknown" →
        matchConf (_match_physician first last docs) = 0 ∧
        matchEnt (_match_physician first last docs) = Option.none) ∧
     matchConf (_match_physician first last docs) =
       ((bestScan (scorePhysician first last) docs).2 : Rat) / (2 : Nat) ∧
     0 ≤ matchConf (_match_physician first last docs) ∧
     matchConf (_match_physician first last docs) ≤ 1 ∧
     (∀ (first' last' : List Char) (docs' : List Doctor), docs' ≠ [] →
        (bestScan (scorePhysician first last) docs).2 ≤
          (bestScan (scorePhysician first' last') docs').2 →
        matchConf (_match_physician first last docs) ≤
          matchConf (_match_physician first' last' docs'))) ∧
    ((¬ isNoData (_match_facility facility_name insts)) ∧
     (matchLabel (_match_facility facility_name insts) = "Unknown" ↔
        ∀ d ∈ insts, scoreFacility facility_name d = 0) ∧
     (matchLabel (_match_facility facility_name insts) = "Unknown" →
        matchConf (_match_facility facility_name insts) = 0 ∧
        matchEnt (_match_facility facility_name insts) = Option.none) ∧
     matchConf (_match_facility facility_name insts) =
       ((bestScan (scoreFacility facility_name) insts).2 : Rat) / (2 : Nat) ∧
     0 ≤ matchConf (_match_facility facility_name insts) ∧
     matchConf (_match_facility facility_name insts) ≤ 1 ∧
     (∀ (facility' : List Char) (insts' : List Institution), insts' ≠ [] →
        (bestScan (scoreFacility facility_name) insts).2 ≤
          (bestScan (scoreFacility facility') insts').2 →
        matchConf (_match_facility facility_name insts) ≤
          matchConf (_match_facility facility' insts'))) ∧
    ((¬ isNoData (_match_lab_report pname ttype labs)) ∧
     (matchLabel (_match_lab_report pname ttype labs) = "Unknown" ↔
        ∀ d ∈ labs, scoreLabReport pname ttype d = 0) ∧
     (matchLabel (_match_lab_report pname ttype labs) = "Unknown" →
        matchConf (_match_lab_report pname ttype labs) = 0 ∧
        matchEnt (_match_lab_report pname ttype labs) = Option.none) ∧
     matchConf (_match_lab_report pname ttype labs) =
       ((bestScan (scoreLabReport pname ttype) labs).2 : Rat) / (3 : Nat) ∧
     0 ≤ matchConf (_match_lab_report pname ttype labs) ∧
     matchConf (_match_lab_report pname ttype labs) ≤ 1 ∧
     (∀ (pname' ttype' : List Char) (labs' : List LabTest), labs' ≠ [] →
        (bestScan (scoreLabReport pname ttype) labs).2 ≤
          (bestScan (scoreLabReport pname' ttype') labs').2 →
        matchConf (_match_lab_report pname ttype labs) ≤
          matchConf (_match_lab_report pname' ttype' labs'))) := by
  obtain ⟨p1, p2, p3, p4, p5, p6⟩ := physician_shape first last docs hdocs
  obtain ⟨f1, f2, f3, f4, f5, f6⟩ := facility_shape facility_name insts hinsts
  obtain ⟨l1, l2, l3, l4, l5, l6⟩ := lab_shape pname ttype labs hlabs
  refine ⟨⟨p1, p2, p3, p4, p5, p6, ?_⟩, ⟨f1, f2, f3, f4, f5, f6, ?_⟩,
    ⟨l1, l2, l3, l4, l5, l6, ?_⟩⟩
  · intro first' last' docs' hd' hle
    obtain ⟨_, _, _, q4, _, _⟩ := physician_shape first' last' docs' hd'
    rw [p4, q4]
    exact conf_div_mono (by omega) hle
  · intro facility' insts' hd' hle
    obtain ⟨_, _, _, q4, _, _⟩ := facility_shape facility' insts' hd'
    rw [f4, q4]
    exact conf_div_mono (by omega) hle
  · intro pname' ttype' labs' hd' hle
    obtain ⟨_, _, _, q4, _, _⟩ := lab_shape pname' ttype' labs' hd'
    rw [l4, q4]
    exact conf_div_mono (by omega) hle

/-- C1 witness: the invariants evaluated on one concrete doctor,
institution and lab-test reference entry. -/
theorem C1_matcher_invariants_witness :
    (([⟨1, cs "anna", cs "dr", cs "smith"⟩] : List Doctor) ≠ [] ∧
     ([⟨7, cs "lab", cs "central lab"⟩] : List Institution) ≠ [] ∧
     ([⟨cs "blood", cs "chemistry", cs "glucose", 3⟩] : List LabTest) ≠ []) ∧
    0 ≤ matchConf (_match_physician (cs "anna") (cs "smith")
        [⟨1, cs "anna", cs "dr", cs "smith"⟩]) ∧
    matchConf (_match_physician (cs "anna") (cs "smith")
        [⟨1, cs "anna", cs "dr", cs "smith"⟩]) ≤ 1 := by
  have h := C1_matcher_invariants (cs "anna") (cs "smith")
    [⟨1, cs "anna", cs "dr", cs "smith"⟩]
    (cs "central") [⟨7, cs "lab", cs "central lab"⟩]
    (cs "glucose") (cs "chemistry") [⟨cs "blood", cs "chemistry", cs "glucose", 3⟩]
    (by simp) (by simp) (by simp)
  exact ⟨⟨by simp, by simp, by simp⟩, h.1.2.2.2.2.1, h.1.2.2.2.2.2.1⟩

/-- C2: on input wrapped in a fence marker (with or without the language
tag), in a wrapper tag (either accepted tag name), or in both, the
Normalizer returns the innermost content stripped of leading and
trailing whitespace; on input containing no fence marker and no wrapper
tag, it returns the stripped input unchanged.  Content is taken free of
backticks and of the tag-opening character, so that the wrapping in the
hypothesis is the only markup present. -/
theorem C2_normalizer_wrapped (c t : List Char)
    (hc : bq ∉ c ∧ '<' ∉ c)
    (ht : containsSeg bt3 t = false ∧ '<' ∉ t) :
    extract_json_from_xml_or_markdown (bt3 ++ cs "json" ++ '\n' :: (c ++ '\n' :: bt3)) =
        pyStrip c ∧
    extract_json_from_xml_or_markdown (bt3 ++ '\n' :: (c ++ '\n' :: bt3)) = pyStrip c ∧
    extract_json_from_xml_or_markdown (openResp ++ (c ++ closeResp)) = pyStrip c ∧
    extract_json_from_xml_or_markdown (openJsonT ++ (c ++ closeJsonT)) = pyStrip c ∧
    extract_json_from_xml_or_markdown
        (bt3 ++ cs "json" ++ '\n' :: ((openResp ++ (c ++ closeResp)) ++ '\n' :: bt3)) =
        pyStrip c ∧
    extract_json_from_xml_or_markdown t = pyStrip t :=
  ⟨extract_fence_json hc.1 hc.2, extract_fence_bare hc.1 hc.2, extract_tag_resp hc.1 hc.2,
   extract_tag_json hc.1 hc.2, extract_fence_tag hc.1 hc.2, extract_clean ht.1 ht.2⟩

/-- C2 witness: the wrapped and unwrapped equations evaluated at a
concrete JSON object payload and a concrete plain text. -/
theorem C2_normalizer_wrapped_witness :
    (bq ∉ [lbr, rbr] ∧ '<' ∉ [lbr, rbr]) ∧
    (containsSeg bt3 (cs " plain ") = false ∧ '<' ∉ cs " plain ") ∧
    extract_json_from_xml_or_markdown
        (bt3 ++ cs "json" ++ '\n' :: ([lbr, rbr] ++ '\n' :: bt3)) = pyStrip [lbr, rbr] ∧
    extract_json_from_xml_or_markdown (openResp ++ ([lbr, rbr] ++ closeResp)) =
        pyStrip [lbr, rbr] ∧
    extract_json_from_xml_or_markdown (cs " plain ") = pyStrip (cs " plain ") := by
  have h := C2_normalizer_wrapped [lbr, rbr] (cs " plain ")
    (by constructor <;> decide) (by constructor <;> decide)
  exact ⟨by constructor <;> decide, by constructor <;> decide, h.1, h.2.2.1, h.2.2.2.2.2⟩

/-- C3 counterexample: on the input holding a fence marker on an
interior line, the output removes material from the middle of the
input, so it is neither empty nor a contiguous substring of the input
at all (in particular not a substring with only leading and trailing
material removed). -/
theorem C3_counterexample :
    (¬ ∃ p q, cs "a\n" ++ bt3 ++ cs "\nb" =
        p ++ extract_json_from_xml_or_markdown (cs "a\n" ++ bt3 ++ cs "\nb") ++ q) ∧
    extract_json_from_xml_or_markdown (cs "a\n" ++ bt3 ++ cs "\nb") ≠ [] := by
  constructor
  · rintro ⟨p, q, hpq⟩
    exact absurd (containsSeg_iff.mpr ⟨p, q, hpq⟩) (by decide)
  · decide

/-- C3 amended: the Normalizer's output is always an order-preserving
subsequence of its input (characters are only deleted, never inserted
or reordered); interior fence lines can be removed, so the deletion is
not restricted to a leading part and a trailing part. -/
theorem C3_output_subsequence (t : List Char) :
    List.Sublist (extract_json_from_xml_or_markdown t) t :=
  extract_sublist t

/-- C4 counterexample: the Normalizer is not idempotent; on a wrapper
tag whose content begins with a fence marker, the first pass returns
the content and the second pass strips the fence from it. -/
theorem C4_counterexample :
    extract_json_from_xml_or_markdown
        (extract_json_from_xml_or_markdown (cs "<response>" ++ bt3 ++ cs "json</response>")) ≠
      extract_json_from_xml_or_markdown (cs "<response>" ++ bt3 ++ cs "json</response>") := by
  decide

/-- C4 amended: the Normalizer is idempotent on every input whose first
output contains no backtick and no tag-opening character (in particular
on every plain structured payload); in general a second application can
strip the output further. -/
theorem C4_idempotent_on_clean (t : List Char)
    (h : bq ∉ extract_json_from_xml_or_markdown t ∧
      '<' ∉ extract_json_from_xml_or_markdown t) :
    extract_json_from_xml_or_markdown (extract_json_from_xml_or_markdown t) =
      extract_json_from_xml_or_markdown t := by
  rw [extract_clean (no_bq_no_bt3 h.1) h.2, extract_stripped]

/-- C4 witness: idempotence evaluated at a concrete input. -/
theorem C4_idempotent_on_clean_witness :
    (bq ∉ extract_json_from_xml_or_markdown (cs " x ") ∧
      '<' ∉ extract_json_from_xml_or_markdown (cs " x ")) ∧
    extract_json_from_xml_or_markdown (extract_json_from_xml_or_markdown (cs " x ")) =
      extract_json_from_xml_or_markdown (cs " x ") :=
  ⟨by constructor <;> decide, C4_idempotent_on_clean (cs " x ") (by constructor <;> decide)⟩

/-- C5 counterexample: a null argument is falsy, so the source takes the
early-return branch and calls a string method on None, raising
AttributeError instead of returning an empty string. -/
theorem C5_counterexample : extract_json_opt Option.none ≠ Except.ok [] := by
  rw [extract_json_opt]
  intro h
  cases h

/-- C5 amended: the Normalizer is total on its declared string domain:
every string argument returns normally (the result of the pure
normalization), and the empty string returns the empty string; a null
argument, outside the declared domain, raises instead of returning. -/
theorem C5_total_on_strings :
    (∀ s : List Char, extract_json_opt (some s) =
        Except.ok (extract_json_from_xml_or_markdown s)) ∧
    extract_json_opt (some []) = Except.ok [] :=
  ⟨fun _ => rfl, rfl⟩

/-- C6: the Validator returns true exactly when the document parses
under the JSON grammar (the result of the modelled json.loads), never
raising: the only failure json.loads signals is the decode error the
Validator catches and turns into false.  The concrete cases of the
specification evaluate as stated. -/
theorem C6_validator :
    (∀ s : List Char, try_parse_json s = true ↔ ∃ v, json_loads s = some v) ∧
    try_parse_json ([lbr] ++ cs "\"a\": 1" ++ [rbr]) = true ∧
    try_parse_json (cs "[]") = true ∧
    try_parse_json (cs "\"x\"") = true ∧
    try_parse_json ([lbr] ++ cs "\"a\": 1") = false := by
  refine ⟨fun s => ?_, by decide, by decide, by decide, by decide⟩
  rw [try_parse_json]
  cases h : json_loads s with
  | some v => simp
  | none => simp

/-- C7: a batch of N repetitions in which every generator call raises
completes normally with a Method Summary having zero successes, a total
of N runs, and exactly N detail records, each an error record. -/
theorem C7_driver_error_batch (gen : Nat → Except String GenOut) (N : Nat)
    (h : ∀ i, i < N → ∃ e, gen i = Except.error e) :
    (runBatch gen N).successes = 0 ∧
    (runBatch gen N).total_runs = N ∧
    (runBatch gen N).details.length = N ∧
    ∀ d ∈ (runBatch gen N).details, isErrRecord d := by
  obtain ⟨h1, h2, h3⟩ := runFold_all_err gen (List.range N) ⟨0, 0, 0, 0, []⟩
    (fun i hi => h i (List.mem_range.mp hi))
  refine ⟨h1, rfl, ?_, ?_⟩
  · have hd : (runBatch gen N).details =
        ((List.range N).foldl (runRep gen) ⟨0, 0, 0, 0, []⟩).details := rfl
    rw [hd, h2]
    simp
  · intro d hd
    rcases h3 d hd with hmem | herr
    · simp at hmem
    · exact herr

/-- C7 witness: a batch of two repetitions of an always-raising
generator. -/
theorem C7_driver_error_batch_witness :
    (∀ i, i < 2 → ∃ e, (fun _ : Nat => (Except.error "API connection failed" :
        Except String GenOut)) i = Except.error e) ∧
    (runBatch (fun _ => Except.error "API connection failed") 2).successes = 0 ∧
    (runBatch (fun _ => Except.error "API connection failed") 2).total_runs = 2 ∧
    (runBatch (fun _ => Except.error "API connection failed") 2).details.length = 2 ∧
    ∀ d ∈ (runBatch (fun _ => Except.error "API connection failed") 2).details,
      isErrRecord d :=
  ⟨fun _ _ => ⟨"API connection failed", rfl⟩,
   C7_driver_error_batch (fun _ => Except.error "API connection failed") 2
     (fun _ _ => ⟨"API connection failed", rfl⟩)⟩

/-- C8 counterexample: the fixed upload option set does not default
every boolean flag to false: is_formatting_instruction defaults to
true (and input_url is a third non-boolean string option). -/
theorem C8_counterexample :
    List.lookup "is_formatting_instruction" uploadData = some (OptVal.b true) ∧
    List.lookup "input_url" uploadData = some (OptVal.s "") ∧
    ¬ (∀ kv ∈ uploadData, ∀ v : Bool, kv.2 = OptVal.b v → v = false) := by
  refine ⟨by decide, by decide, ?_⟩
  intro h
  have := h ("is_formatting_instruction", OptVal.b true) (by decide) true rfl
  simp at this

/-- C8 amended: every boolean feature flag in the fixed upload option
set except is_formatting_instruction (which defaults to true) defaults
to false; the non-boolean options are the parse mode, the vendor model
name, and an empty input_url string. -/
theorem C8_flags_default (kv : String × OptVal) (hkv : kv ∈ uploadData) (v : Bool)
    (hv : kv.2 = OptVal.b v) : kv.1 = "is_formatting_instruction" ∨ v = false := by
  have H : ∀ kv ∈ uploadData, ∀ v : Bool, kv.2 = OptVal.b v →
      (kv.1 = "is_formatting_instruction" ∨ v = false) := by decide
  exact H kv hkv v hv

/-- C8 witness: the amended default evaluated at one concrete flag. -/
theorem C8_flags_default_witness :
    (("take_screenshot", OptVal.b false) ∈ uploadData ∧
      ("take_screenshot", OptVal.b false).2 = OptVal.b false) ∧
    ("take_screenshot" = "is_formatting_instruction" ∨ false = false) :=
  ⟨⟨by decide, rfl⟩, C8_flags_default ("take_screenshot", OptVal.b false) (by decide) false rfl⟩

/-- C9: every outcome of the three matchers is either a status-False
record or a Match Result whose label lies in the set holding
"Similar: Typo", "Alternative" and "Unknown"; the label "Exact",
although declared among the MatchScore values, is never produced. -/
theorem C9_labels :
    (∀ (first last : List Char) (docs : List Doctor),
        labelOk (_match_physician first last docs) ∧
        matchLabel (_match_physician first last docs) ≠ "Exact") ∧
    (∀ (facility_name : List Char) (insts : List Institution),
        labelOk (_match_facility facility_name insts) ∧
        matchLabel (_match_facility facility_name insts) ≠ "Exact") ∧
    (∀ (name test_type : List Char) (labs : List LabTest),
        labelOk (_match_lab_report name test_type labs) ∧
        matchLabel (_match_lab_report name test_type labs) ≠ "Exact") ∧
    "Exact" ∈ MatchScoreValues :=
  ⟨fun f l docs => ⟨labelOk_physician f l docs,
      labelOk_ne_exact _ (labelOk_physician f l docs)⟩,
   fun f insts => ⟨labelOk_facility f insts, labelOk_ne_exact _ (labelOk_facility f insts)⟩,
   fun n t labs => ⟨labelOk_lab n t labs, labelOk_ne_exact _ (labelOk_lab n t labs)⟩,
   by decide⟩

/-- C10: with both extracted physician name fields empty, every
reference doctor is awarded the full score of 2 (the empty string is
contained in every string), so the matcher returns the first doctor of
a non-empty reference list with label "Similar: Typo" and
confidence 1. -/
theorem C10_empty_names_first_doctor (d : Doctor) (rest : List Doctor) :
    _match_physician [] [] (d :: rest) = MatchOut.res (some d) "Similar: Typo" 1 ∧
    (∀ x ∈ d :: rest, scorePhysician [] [] x = 2) := by
  have hbs : bestScan (scorePhysician [] []) (d :: rest) = (some d, 2) :=
    bestScan_cons_max _ d rest 2 (scorePhysician_empty d) (by omega)
      (fun x _ => scorePhysician_le [] [] x)
  constructor
  · rw [_match_physician, if_neg (by simp), hbs]
    norm_num [Option.isSome]
  · intro x _
    exact scorePhysician_empty x
